import Mathlib

/-!
Shallow embedding of the fo_data virtual-registry subsystem (fonline-rust/fo_data).

Paths are modelled as Lean `String`s (the repository's paths are UTF-8 strings;
all concrete examples below are ASCII, where `Char.toNat` agrees with the UTF-8
byte).  Machine integers (`u16`, `u32`, `u64`) are modelled as `Nat`, with an
explicit `% 2 ^ w` where the source performs a narrowing cast.  Fallible Rust
functions returning `Result` are modelled with `Except`; functions whose only
effects are file-system reads are modelled as pure functions over an explicit
"world" record that supplies the outcome of each read.
-/

set_option maxRecDepth 100000

deriving instance DecidableEq for Except

namespace Fo

/-- UTF-8 bytes of an ASCII string (`str::as_bytes`); faithful for the ASCII
strings used throughout. -/
def strBytes (s : String) : List Nat := s.data.map Char.toNat

/-- Modelled from the spec: the 32-bit fingerprint hasher.  The source calls the
external crate function `crc32fast::hash` (not part of this repository), which
computes the standard CRC-32 (IEEE 802.3, reflected, init and final xor
`0xFFFFFFFF`).  One bit step of that algorithm. -/
def crc32Step (c : Nat) : Nat :=
  if c % 2 = 1 then (c / 2) ^^^ 0xEDB88320 else c / 2

/-- Iterate `crc32Step` a fixed number of times. -/
def crc32Iter : Nat → Nat → Nat
  | 0, c => c
  | n + 1, c => crc32Iter n (crc32Step c)

/-- Modelled from the spec: `crc32fast::hash` — standard CRC-32 over a byte
sequence. -/
def crc32 (bytes : List Nat) : Nat :=
  (bytes.foldl (fun c b => crc32Iter 8 (c ^^^ (b % 256))) 0xFFFFFFFF) ^^^ 0xFFFFFFFF

/-- `crate::hash` from src/lib.rs: `crc32fast::hash(bytes)`. -/
def hashBytes (bytes : List Nat) : Nat := crc32 bytes

/-- Modelled from the spec: the external path canonicalizer
`fformat_utils::make_path_conventional` (declared outside this repository's
src/).  Per the spec ("normalizes an arbitrary path string (separators, case)
into one canonical form"), backslash separators become slashes and letters are
lowercased. -/
def makePathConventional (s : String) : String :=
  ⟨s.data.map (fun c => if c = '\\' then '/' else c.toLower)⟩

/-- `FileLocation` from src/lib.rs. -/
inductive FileLocation where
  | Archive (index : Nat) (original_path : String) (compressed_size : Nat)
  | Local (original_path : String)
  deriving DecidableEq, Repr

/-- Whether a `FileLocation` is the `Local` variant. -/
def FileLocation.isLocal : FileLocation → Bool
  | .Local _ => true
  | _ => false

/-- `FileInfo` from src/lib.rs. -/
structure FileInfo where
  location : FileLocation
  conventional_path : String
  deriving DecidableEq, Repr

/-- `FileInfo::new_in_archive` from src/lib.rs. -/
def FileInfo.new_in_archive (conventional_path : String) (archive_index : Nat)
    (original_path : String) (compressed_size : Nat) : FileInfo :=
  ⟨.Archive archive_index original_path compressed_size, conventional_path⟩

/-- `FileInfo::new_local` from src/lib.rs. -/
def FileInfo.new_local (conventional_path : String) (original_path : String) : FileInfo :=
  ⟨.Local original_path, conventional_path⟩

/-- `FileInfo::hash` from src/lib.rs: `hash(self.conventional_path.as_bytes())`. -/
def FileInfo.hash (fi : FileInfo) : Nat := hashBytes (strBytes fi.conventional_path)

/-- `crawler::Error` from src/crawler.rs. -/
inductive CrawlerError where
  | Conflict (hash : Nat) (old new : FileInfo)
  | LocalRewrite (file : String) (old new : FileLocation)
  deriving DecidableEq, Repr

/-- The `Files` registry map (`IntMap<u32, FileInfo>` from src/crawler.rs),
modelled as an association list with at most one binding per key (lookups take
the first binding, as a hash map would its unique one). -/
abbrev Files := List (Nat × FileInfo)

/-- `Files::get` / `IntMap::get`. -/
def filesGet (fs : Files) (h : Nat) : Option FileInfo :=
  (fs.find? (fun p => p.1 == h)).map (fun p => p.2)

/-- In-place update of the binding for key `h` (the `Entry::Occupied` mutation
`old.location = ...` in `reconcile_paths`). -/
def filesReplace (fs : Files) (h : Nat) (v : FileInfo) : Files :=
  fs.map (fun p => if p.1 == h then (p.1, v) else p)

/-- The `on_shadow` callback type of `Files::reconcile_paths`. -/
abbrev OnShadow := String → FileLocation → FileLocation → Except CrawlerError Unit

/-- `Files::reconcile_paths` from src/crawler.rs.  For each incoming
`(hash, file_info)` pair: a vacant entry is inserted; an occupied entry whose
`conventional_path` differs aborts with `Conflict`; otherwise `on_shadow` is
consulted and, on success, the old entry's `location` is overwritten (its
`conventional_path` is kept). -/
def reconcilePaths (fs : Files) (ps : List (Nat × FileInfo)) (onShadow : OnShadow) :
    Except CrawlerError Files :=
  match ps with
  | [] => .ok fs
  | (h, fi) :: rest =>
    match filesGet fs h with
    | none => reconcilePaths (fs ++ [(h, fi)]) rest onShadow
    | some old =>
      if old.conventional_path ≠ fi.conventional_path then
        .error (.Conflict h old fi)
      else
        match onShadow fi.conventional_path old.location fi.location with
        | .error e => .error e
        | .ok _ => reconcilePaths (filesReplace fs h ⟨fi.location, old.conventional_path⟩) rest onShadow

/-- The shadow callback used for the archive pass in `FoRegistry::init`
(src/lib.rs): `|_, _, _| Ok(())`. -/
def archiveOnShadow : OnShadow := fun _ _ _ => .ok ()

/-- The shadow callback used for the local pass in `FoRegistry::init`
(src/lib.rs): reject with `LocalRewrite` when the old location is `Local`,
accept otherwise. -/
def localOnShadow : OnShadow := fun file old new =>
  match old with
  | .Local _ => .error (.LocalRewrite file old new)
  | _ => .ok ()

/-- The two reconciliation passes of `FoRegistry::init` (src/lib.rs): all
archive batches, flattened in configured order, reconciled into an empty map
with the trivial shadow callback; then the single local batch reconciled last
with the `LocalRewrite`-producing callback. -/
def initFiles (archiveBatches : List (List (Nat × FileInfo)))
    (localPaths : List (Nat × FileInfo)) : Except CrawlerError Files :=
  match reconcilePaths [] archiveBatches.flatten archiveOnShadow with
  | .error e => .error e
  | .ok f1 => reconcilePaths f1 localPaths localOnShadow

/-- The last `FileInfo` paired with key `k` in a pair sequence (processing
order); `none` if `k` never occurs. -/
def lastWithKey (k : Nat) : List (Nat × FileInfo) → Option FileInfo
  | [] => none
  | (h, fi) :: rest =>
    match lastWithKey k rest with
    | some r => some r
    | none => if h == k then some fi else none

/-- First-`some` choice on options. -/
def oElse (a b : Option FileInfo) : Option FileInfo :=
  match a with
  | some x => some x
  | none => b

/-- `FoMetadata` from src/lib.rs. -/
inductive FoMetadata where
  | File
  | Dir
  deriving DecidableEq, Repr

/-- Byte-order comparison of strings as char lists (the ordering of Rust's
`BTreeMap<String, _>`; identical to lexicographic char order for ASCII). -/
def charListLt : List Char → List Char → Bool
  | [], [] => false
  | [], _ :: _ => true
  | _ :: _, [] => false
  | a :: as, b :: bs => if a < b then true else if b < a then false else charListLt as bs

/-- String order used by the `PathMap` (`BTreeMap`) model. -/
def strLt (a b : String) : Bool := charListLt a.data b.data

/-- Lookup in the assoc-list model of a `BTreeMap<String, α>`. -/
def amGet {α : Type} (m : List (String × α)) (k : String) : Option α :=
  (m.find? (fun p => p.1 == k)).map (fun p => p.2)

/-- Sorted insert-or-replace in the assoc-list model of a `BTreeMap<String, α>`
(keeps keys in ascending byte order, as `BTreeMap` iteration does). -/
def amInsert {α : Type} : List (String × α) → String → α → List (String × α)
  | [], k, v => [(k, v)]
  | (k1, v1) :: t, k, v =>
    if k == k1 then (k, v) :: t
    else if strLt k k1 then (k, v) :: (k1, v1) :: t
    else (k1, v1) :: amInsert t k v

/-- One directory's children in the `Dirs` index: child key (the full child
path, as the source inserts it) to its metadata. -/
abbrev DirEntries := List (String × FoMetadata)

/-- `BTreeMap::contains_key` on a children map. -/
def entriesContains (es : DirEntries) (k : String) : Bool :=
  es.any (fun p => p.1 == k)

/-- Lookup in a children map. -/
def entriesGet (es : DirEntries) (k : String) : Option FoMetadata :=
  (es.find? (fun p => p.1 == k)).map (fun p => p.2)

/-- `str::trim_end_matches('/')` on a char list. -/
def trimEndSlashesL (l : List Char) : List Char :=
  (l.reverse.dropWhile (fun c => c == '/')).reverse

/-- `str::trim_end_matches('/')`. -/
def trimEndSlashes (s : String) : String := ⟨trimEndSlashesL s.data⟩

/-- `str::rsplit_once('/')` on a char list: split at the last slash into the
part before and the part after; `none` when no slash occurs. -/
def rsplitOnceSlashL : List Char → Option (List Char × List Char)
  | [] => none
  | c :: rest =>
    match rsplitOnceSlashL rest with
    | some (a, b) => some (c :: a, b)
    | none => if c = '/' then some ([], rest) else none

/-- `Dirs` from src/lib.rs: `PathMap<String, PathMap<String, FoMetadata>>`. -/
structure Dirs where
  map : List (String × DirEntries)
  deriving DecidableEq, Repr

/-- The empty directory index (`Dirs::default`). -/
def Dirs.emptyIndex : Dirs := ⟨[]⟩

/-- `Dirs::parent` from src/lib.rs:
`path.trim_end_matches('/').rsplit_once('/').unwrap_or(("", &path)).0`. -/
def Dirs.parent (path : String) : String :=
  match rsplitOnceSlashL (trimEndSlashesL path.data) with
  | some (a, _) => ⟨a⟩
  | none => ""

/-- `Dirs::register` from src/lib.rs, with an explicit structural fuel so the
definition reduces in the kernel.  The fuel is a strict upper bound on the path
length; the parent of a non-empty-parent path is strictly shorter, so with the
fuel `Dirs.register` supplies below the zero-fuel branch is unreachable
(`registerFuel_irrel` makes the fuel-independence precise). -/
def registerFuel : Nat → Dirs → String → FoMetadata → Dirs
  | 0, d, _, _ => d
  | fuel + 1, d, path, metadata =>
    if entriesContains ((amGet d.map (Dirs.parent path)).getD []) path then d
    else
      if Dirs.parent path == "" then
        ⟨amInsert d.map (Dirs.parent path)
          (amInsert ((amGet d.map (Dirs.parent path)).getD []) path metadata)⟩
      else
        registerFuel fuel
          ⟨amInsert d.map (Dirs.parent path)
            (amInsert ((amGet d.map (Dirs.parent path)).getD []) path metadata)⟩
          (Dirs.parent path) .Dir

/-- `Dirs::register` from src/lib.rs: register `path` under its parent, then
recursively register the parent chain as `Dir` entries up to the root. -/
def Dirs.register (d : Dirs) (path : String) (metadata : FoMetadata) : Dirs :=
  registerFuel (path.data.length + 1) d path metadata

/-- `CacheMetadata` from src/lib.rs. -/
structure CacheMetadata where
  changed : Nat
  local_paths_len : Nat
  local_paths_hash : Nat
  deriving DecidableEq, Repr

/-- Modelled from the spec: the local fingerprint (`CacheMetadata::new` feeds
the local path keys, in crawl order, into std's `DefaultHasher`, which is
outside this repository).  Per the spec it is "an order-dependent combination
of all local PathKeys"; we model it as an order-dependent 64-bit fold. -/
def localPathsFingerprint (hashes : List Nat) : Nat :=
  hashes.foldl (fun acc h => (acc * 1099511628211 + h) % (2 ^ 64)) 14695981039346656037

/-- `CacheMetadata::new` from src/lib.rs, with the `ChangeTime::now()` of its
`Default` part supplied explicitly (`local_paths.len() as u32` is the `u32`
narrowing). -/
def CacheMetadata.mkNew (now : Nat) (localHashes : List Nat) : CacheMetadata :=
  ⟨now, localHashes.length % (2 ^ 32), localPathsFingerprint localHashes⟩

/-- `FoArchive` from src/lib.rs (`ChangeTime` modelled as `Nat`). -/
structure FoArchive where
  changed : Nat
  path : String
  deriving DecidableEq, Repr

/-- `FoRegistry` from src/lib.rs. -/
structure FoRegistry where
  cache_metadata : CacheMetadata
  archives : List FoArchive
  files : Files
  dirs : Dirs
  deriving DecidableEq, Repr

/-- `FoRegistry::version` from src/lib.rs. -/
def FoRegistry.version : Nat := 1

/-- `datafiles::Error` (opaque here; no claim depends on its shape). -/
inductive DatafilesError where
  | errored
  deriving DecidableEq, Repr

/-- `DataInitError` from src/lib.rs.  The source's `CacheIO` variant is named
`CacheIoFail` here (and `bincode`/`io` error payloads are dropped as opaque). -/
inductive DataInitError where
  | LoadPalette
  | Datafiles (e : DatafilesError)
  | GatherPaths (e : CrawlerError)
  | CacheSerialize
  | CacheDeserialize
  | CacheIoFail
  | DataFolderMissing
  | CacheStale
  | CacheIncompatible
  deriving DecidableEq, Repr

/-- `FoRegistryCacheHeader` from src/registry_cache.rs (`pattern: [u8; 10]`
modelled as a byte list, `version: u32` as `Nat`). -/
structure FoRegistryCacheHeader where
  pattern : List Nat
  version : Nat
  deriving DecidableEq, Repr

/-- The expected magic tag `b"FoRegistry"`. -/
def foRegistryPattern : List Nat := strBytes "FoRegistry"

/-- `FoRegistryCache` as produced by its `Deserialize` impl: the header plus
either the decoded registry or the `CacheIncompatible` marker. -/
structure FoRegistryCache where
  header : FoRegistryCacheHeader
  data : Except DataInitError FoRegistry
  deriving Repr

/-- The `Deserialize` impl of `FoRegistryCache` (src/registry_cache.rs):
the header is decoded first; if the magic pattern or the version differs from
the running build's expectation the visitor returns `Err(CacheIncompatible)` as
the payload slot *without reading the payload element*; otherwise the payload
is decoded (a payload decoding failure failing the whole deserialization).
`payload` supplies what decoding the payload element would yield. -/
def cacheDeserialize (header : FoRegistryCacheHeader)
    (payload : Except Unit FoRegistry) : Except Unit FoRegistryCache :=
  if header.pattern ≠ foRegistryPattern ∨ header.version ≠ FoRegistry.version then
    .ok ⟨header, .error .CacheIncompatible⟩
  else
    match payload with
    | .error e => .error e
    | .ok d => .ok ⟨header, .ok d⟩

/-- Outcomes of the file-system reads performed by
`FoRegistry::recover_from_cache` (src/lib.rs). -/
structure RecoverWorld where
  cacheMtime : Except Unit Nat
  cacheHeader : FoRegistryCacheHeader
  cachePayload : Except Unit FoRegistry
  datafilesChangetime : Except DatafilesError Nat

/-- `FoRegistry::recover_from_cache` from src/lib.rs: open the cache file and
read its mtime (`CacheIO` on failure), deserialize it (`CacheDeserialize` on
failure, a header mismatch surfacing as `CacheIncompatible` via `into_data()?`),
read the datafiles config mtime, then take
`cache_changed = min(cache file mtime, persisted built-at)` and declare the
cache stale when the config is newer, the recomputed local metadata differs,
or some persisted archive is newer. -/
def recoverFromCache (w : RecoverWorld) (new_cache_metadata : CacheMetadata) :
    Except DataInitError FoRegistry :=
  match w.cacheMtime with
  | .error _ => .error .CacheIoFail
  | .ok mtime =>
    match cacheDeserialize w.cacheHeader w.cachePayload with
    | .error _ => .error .CacheDeserialize
    | .ok cache =>
      match cache.data with
      | .error e => .error e
      | .ok data =>
        match w.datafilesChangetime with
        | .error e => .error (.Datafiles e)
        | .ok datafiles_changetime =>
          let cache_changed := min mtime data.cache_metadata.changed
          if datafiles_changetime > cache_changed then .error .CacheStale
          else if new_cache_metadata.local_paths_len ≠ data.cache_metadata.local_paths_len
              ∨ new_cache_metadata.local_paths_hash ≠ data.cache_metadata.local_paths_hash then
            .error .CacheStale
          else if data.archives.any (fun a => a.changed > cache_changed) then .error .CacheStale
          else .ok data

/-- Outcomes of the file-system interactions performed by `FoRegistry::init`
(src/lib.rs): the local crawl (`DataFolderMissing` when the data folder cannot
be canonicalized), the whole `recover_from_cache` attempt, the datafiles config
parse, the archive crawl batches, and the fresh-cache write (`CacheIO` on
`File::create` failure, `CacheSerialize` on serialization failure). -/
structure InitWorld where
  now : Nat
  localPaths : Except Unit (List (Nat × FileInfo))
  recovery : Except DataInitError FoRegistry
  archives : Except DatafilesError (List FoArchive)
  archiveBatches : List (List (Nat × FileInfo))
  cacheWrite : Except DataInitError Unit

/-- The directory-index pass of `FoRegistry::init`:
`for path in files.paths() { dirs.register(path, FoMetadata::File) }`. -/
def buildDirs (fs : Files) : Dirs :=
  fs.foldl (fun d p => d.register p.2.conventional_path .File) Dirs.emptyIndex

/-- The full-rebuild tail of `FoRegistry::init` (src/lib.rs): parse the
datafiles config, reconcile the archive batches then the local batch, build the
directory index, then write the fresh cache file before returning the
registry.  Note this path never consults the recovery outcome. -/
def rebuildFresh (w : InitWorld) (localPaths : List (Nat × FileInfo))
    (cache_metadata : CacheMetadata) : Except DataInitError FoRegistry :=
  match w.archives with
  | .error e => .error (.Datafiles e)
  | .ok archives =>
    match reconcilePaths [] w.archiveBatches.flatten archiveOnShadow with
    | .error e => .error (.GatherPaths e)
    | .ok f1 =>
      match reconcilePaths f1 localPaths localOnShadow with
      | .error e => .error (.GatherPaths e)
      | .ok f2 =>
        match w.cacheWrite with
        | .error e => .error e
        | .ok _ => .ok ⟨cache_metadata, archives, f2, buildDirs f2⟩

/-- `FoRegistry::init` from src/lib.rs: crawl the local tree, compute the new
cache metadata, attempt cache recovery (returning its registry on success), and
on any recovery error fall back to the full rebuild. -/
def registryInit (w : InitWorld) : Except DataInitError FoRegistry :=
  match w.localPaths with
  | .error _ => .error .DataFolderMissing
  | .ok localPaths =>
    let cache_metadata := CacheMetadata.mkNew w.now (localPaths.map (fun p => p.1))
    match w.recovery with
    | .ok data => .ok data
    | .error _ => rebuildFresh w localPaths cache_metadata

/-- `FoRegistry::is_dir` from src/lib.rs. -/
def isDir (r : FoRegistry) (path : String) : Bool :=
  path == "" || (amGet r.dirs.map (trimEndSlashes path)).isSome

/-- `Files::file_info` from src/crawler.rs: look the raw input path up under
`crate::hash(path.as_bytes())` — no canonicalization of the input. -/
def fileInfoByPath (fs : Files) (path : String) : Option FileInfo :=
  filesGet fs (hashBytes (strBytes path))

/-- `FoRegistry::ls_dir` from src/lib.rs: the children map of
`path.trim_end_matches('/')`, listing each entry's key. -/
def lsDir (r : FoRegistry) (path : String) : Option (List String) :=
  (amGet r.dirs.map (trimEndSlashes path)).map (fun es => es.map (fun p => p.1))

/-- A zip entry as seen by the archive crawler (name, directory flag,
compressed size). -/
structure ZipEntry where
  name : String
  is_dir : Bool
  compressed_size : Nat
  deriving DecidableEq, Repr

/-- `crawler::gather_paths_in_archives` from src/crawler.rs, over the entry
lists of the already-opened archives: per archive (in configured order,
enumerated for the `u16` archive index), skip directory entries, canonicalize
each entry name, and emit `(FileInfo::hash, FileInfo)` pairs. -/
def gatherPathsInArchives (archives : List (List ZipEntry)) :
    List (List (Nat × FileInfo)) :=
  archives.enum.map (fun ae =>
    ae.2.filterMap (fun e =>
      if e.is_dir then none
      else
        let fi := FileInfo.new_in_archive (makePathConventional e.name) ae.1 e.name
          e.compressed_size
        some (fi.hash, fi)))

/-- `crawler::gather_local_paths` from src/crawler.rs, over the walked regular
files, each given as (path relative to the crawl root, full path): canonicalize
the relative path and emit `(FileInfo::hash, FileInfo)` pairs. -/
def gatherLocalPaths (entries : List (String × String)) : List (Nat × FileInfo) :=
  entries.map (fun e =>
    let fi := FileInfo.new_local (makePathConventional e.1) e.2
    (fi.hash, fi))

/-- Every pair carries the hash of its own `FileInfo`'s conventional path. -/
def pairsPaired (ps : List (Nat × FileInfo)) : Prop :=
  ∀ p ∈ ps, p.1 = p.2.hash

/-- The registry-map invariant: each entry's key is the crc32 hash of that
entry's `conventional_path`. -/
def filesInv (fs : Files) : Prop :=
  ∀ p ∈ fs, p.1 = p.2.hash

/-- `retriever::fo::Error` from src/retriever/fo.rs (payloads other than the
archive path are dropped as opaque; the source's `LocalIO` variant is named
`LocalIoFail` here). -/
inductive RetrieveError where
  | NotFound
  | InvalidArchiveIndex
  | OpenArchive (path : String)
  | Zip
  | UnsupportedFileLocation
  | ArchiveRead
  | LocalIoFail
  deriving DecidableEq, Repr

/-- The result of running a retrieval, with `panic` for a Rust panic (such as
an out-of-bounds `Vec` index). -/
inductive RunResult (α : Type) where
  | ok (val : α)
  | err (e : RetrieveError)
  | panic
  deriving DecidableEq, Repr

/-- An opened zip archive: entry name to the outcome reading (decompressing)
that entry would have. -/
abbrev ZipData := List (String × Except Unit (List Nat))

/-- Outcome of opening one archive file and parsing it as a zip. -/
inductive OpenOutcome where
  | ioErr
  | zipErr
  | ok (z : ZipData)

/-- Outcomes of the file-system reads performed by the retriever. -/
structure RetrieveWorld where
  openArchive : String → OpenOutcome
  localRead : String → Except Unit (List Nat)

/-- `FoRetriever` from src/retriever/fo.rs: one lazily-populated archive handle
slot per archive, plus the shared registry. -/
structure FoRetriever where
  slots : List (Option ZipData)
  data : FoRegistry

/-- `FoRetriever::new` from src/retriever/fo.rs: the slot vector is resized to
`data.archives.len()`, every slot empty. -/
def FoRetriever.mkNew (data : FoRegistry) : FoRetriever :=
  ⟨data.archives.map (fun _ => none), data⟩

/-- `FoRetriever::get_archive` from src/retriever/fo.rs.  The source first
indexes the slot vector (`self.archives[archive_index].lock()`), which panics
when the index is out of bounds; only inside an empty slot does it consult
`self.data.archives.get(archive_index)`, mapping `None` to
`InvalidArchiveIndex`, then open the archive file (`OpenArchive` on IO error,
`Zip` on zip parse error). -/
def getArchive (r : FoRetriever) (w : RetrieveWorld) (i : Nat) : RunResult ZipData :=
  if i < r.slots.length then
    match r.slots.get? i with
    | some (some z) => .ok z
    | _ =>
      match r.data.archives.get? i with
      | none => .err .InvalidArchiveIndex
      | some a =>
        match w.openArchive a.path with
        | .ioErr => .err (.OpenArchive a.path)
        | .zipErr => .err .Zip
        | .ok z => .ok z
  else .panic

/-- `FoRetriever::file_by_info` from src/retriever/fo.rs: archive-backed
entries go through `get_archive` then `by_name` (`Zip` when the entry is
missing) and a full read (`ArchiveRead` on failure); local entries are read
fresh from disk (`LocalIO` on failure). -/
def fileByInfo (r : FoRetriever) (w : RetrieveWorld) (fi : FileInfo) :
    RunResult (List Nat) :=
  match fi.location with
  | .Archive idx orig _ =>
    match getArchive r w idx with
    | .panic => .panic
    | .err e => .err e
    | .ok z =>
      match z.find? (fun p => p.1 == orig) with
      | none => .err .Zip
      | some (_, .error _) => .err .ArchiveRead
      | some (_, .ok bytes) => .ok bytes
  | .Local p =>
    match w.localRead p with
    | .error _ => .err .LocalIoFail
    | .ok b => .ok b

/-- `FoRetriever::file_by_path` from src/retriever/fo.rs: look the raw path up
via `Files::file_info` (`NotFound` when absent) and retrieve by the found
info. -/
def fileByPath (r : FoRetriever) (w : RetrieveWorld) (path : String) :
    RunResult (List Nat) :=
  match fileInfoByPath r.data.files path with
  | none => .err .NotFound
  | some fi => fileByInfo r w fi

/-! Concrete example data used by witnesses and counterexamples. -/

/-- Example archive file shadowed twice (override-order witness). -/
def fiA1 : FileInfo := FileInfo.new_in_archive "art/x.frm" 0 "art/x.frm" 1

/-- Same canonical path declared by the later archive. -/
def fiB1 : FileInfo := FileInfo.new_in_archive "art/x.frm" 1 "art/x.frm" 2

/-- Same canonical path provided by the local tree. -/
def fiL1 : FileInfo := FileInfo.new_local "art/x.frm" "/root/data/art/x.frm"

/-- Example registry contents for the directory-synthesis example: the two
canonical paths of the claim. -/
def fi7a : FileInfo := FileInfo.new_local "a/b/c.txt" "/root/data/a/b/c.txt"

/-- Second registered file of the directory-synthesis example. -/
def fi7b : FileInfo := FileInfo.new_local "a/d.txt" "/root/data/a/d.txt"

/-- Registry map for the directory-synthesis example. -/
def exFiles7 : Files := [(fi7a.hash, fi7a), (fi7b.hash, fi7b)]

/-- Registry for the directory-synthesis example, its directory index built the
way `FoRegistry::init` builds it. -/
def exReg7 : FoRegistry := ⟨⟨0, 0, 0⟩, [], exFiles7, buildDirs exFiles7⟩

/-- A registered canonical (lowercase) path, for the no-canonicalization
lookup example. -/
def fi8 : FileInfo := FileInfo.new_local "art/tiles/fom1000.frm" "/root/data/art/tiles/fom1000.frm"

/-- Registry map holding only `fi8`. -/
def exFiles8 : Files := [(fi8.hash, fi8)]

/-- Registry for the no-canonicalization lookup example. -/
def exReg8 : FoRegistry := ⟨⟨0, 0, 0⟩, [], exFiles8, buildDirs exFiles8⟩

/-- Retrieval world whose local reads succeed (its contents are irrelevant to
the lookup examples). -/
def exWorld8 : RetrieveWorld := ⟨fun _ => .zipErr, fun _ => .ok [1, 2, 3]⟩

/-- A registry with an empty archive table (invalid-archive-index example). -/
def exReg9 : FoRegistry := ⟨⟨0, 0, 0⟩, [], [], Dirs.emptyIndex⟩

/-- A `FileInfo` whose archive index (0) is out of bounds for `exReg9`'s empty
archive table. -/
def exInfo9 : FileInfo := ⟨.Archive 0 "x.frm" 10, "x.frm"⟩

/-- Retrieval world for the invalid-index example. -/
def exWorld9 : RetrieveWorld := ⟨fun _ => .zipErr, fun _ => .error ()⟩

/-- Init world for the cache-write-failure counterexample: recovery failed
(stale cache), every source read succeeds, but writing the fresh cache file
fails with an IO error. -/
def exInitW4 : InitWorld := ⟨0, .ok [], .error .CacheStale, .ok [], [], .error .CacheIoFail⟩

/-- Init world for the fallback witness: recovery failed, rebuild succeeds. -/
def exInitW4b : InitWorld := ⟨5, .ok [], .error .CacheIncompatible, .ok [], [], .ok ()⟩

/-- Persisted registry used by the staleness witness. -/
def exData5 : FoRegistry := ⟨⟨8, 2, 7⟩, [⟨4, "a.zip"⟩], [], Dirs.emptyIndex⟩

/-- Recovery world for the staleness witness: cache file mtime 10, good header,
payload `exData5`, datafiles config mtime 3. -/
def exRecW5 : RecoverWorld := ⟨.ok 10, ⟨foRegistryPattern, 1⟩, .ok exData5, .ok 3⟩

/-- Freshly recomputed metadata matching `exData5`'s persisted metadata. -/
def exMeta5 : CacheMetadata := ⟨9, 2, 7⟩

/-- A header with the right magic but a wrong (bumped) schema version. -/
def exBadHeader6 : FoRegistryCacheHeader := ⟨foRegistryPattern, 2⟩

/-! Theorems. -/

theorem oElse_none_right (a : Option FileInfo) : oElse a none = a := by
  cases a <;> rfl

theorem oElse_assoc (a b c : Option FileInfo) :
    oElse (oElse a b) c = oElse a (oElse b c) := by
  cases a <;> rfl

theorem lastWithKey_cons (k h0 : Nat) (fi : FileInfo) (rest : List (Nat × FileInfo)) :
    lastWithKey k ((h0, fi) :: rest) =
      oElse (lastWithKey k rest) (if h0 == k then some fi else none) := by
  cases hl : lastWithKey k rest <;> simp [lastWithKey, hl, oElse]

theorem filesGet_append (fs1 fs2 : Files) (k : Nat) :
    filesGet (fs1 ++ fs2) k = oElse (filesGet fs1 k) (filesGet fs2 k) := by
  induction fs1 with
  | nil => simp [filesGet, oElse]
  | cons p t ih =>
    cases hp : (p.1 == k) with
    | true => simp [filesGet, List.find?, hp, oElse]
    | false =>
      simp only [List.cons_append]
      simpa [filesGet, List.find?, hp] using ih

theorem filesGet_single (h0 k : Nat) (fi : FileInfo) :
    filesGet [(h0, fi)] k = if h0 == k then some fi else none := by
  cases hp : (h0 == k) with
  | true => simp [filesGet, List.find?, hp]
  | false => simp [filesGet, List.find?, hp]

theorem filesGet_replace (fs : Files) (h0 k : Nat) (v : FileInfo) :
    filesGet (filesReplace fs h0 v) k =
      if h0 == k then (filesGet fs k).map (fun _ => v) else filesGet fs k := by
  induction fs with
  | nil => cases hp : (h0 == k) <;> simp [filesGet, filesReplace, hp]
  | cons p t ih =>
    cases hph : (p.1 == h0) with
    | true =>
      have hph' : p.1 = h0 := by simpa using hph
      cases hpk : (h0 == k) with
      | true =>
        have hk : h0 = k := by simpa using hpk
        simp [filesGet, filesReplace, List.find?, hph, hph', hk, ih]
      | false =>
        have hk : ¬(p.1 == k) = true := by
          simp only [hph']
          simpa using hpk
        simp only [filesReplace, List.map_cons, hph, if_pos rfl] at *
        simp [filesGet, List.find?, hph', hpk, hk] at *
        simpa [filesGet, filesReplace, hpk] using ih
    | false =>
      cases hpk : (p.1 == k) with
      | true =>
        have hk : p.1 = k := by simpa using hpk
        have : ¬(h0 == k) = true := by
          intro hc
          have : h0 = k := by simpa using hc
          rw [this, ← hk] at hph
          simp at hph
        simp [filesGet, filesReplace, List.find?, hph, hpk, this]
      | false =>
        simpa [filesGet, filesReplace, List.find?, hph, hpk] using ih

theorem lastWithKey_append (k : Nat) (l1 l2 : List (Nat × FileInfo)) :
    lastWithKey k (l1 ++ l2) = oElse (lastWithKey k l2) (lastWithKey k l1) := by
  induction l1 with
  | nil => simp [lastWithKey, oElse_none_right]
  | cons p t ih =>
    obtain ⟨h0, fi⟩ := p
    rw [List.cons_append, lastWithKey_cons, ih, oElse_assoc, lastWithKey_cons]

theorem reconcilePaths_get (ps : List (Nat × FileInfo)) (fs fs' : Files)
    (cb : OnShadow) (h : reconcilePaths fs ps cb = .ok fs') (k : Nat) :
    filesGet fs' k = oElse (lastWithKey k ps) (filesGet fs k) := by
  induction ps generalizing fs with
  | nil =>
    simp only [reconcilePaths, Except.ok.injEq] at h
    subst h
    simp [lastWithKey, oElse]
  | cons p rest ih =>
    obtain ⟨h0, fi⟩ := p
    cases hget : filesGet fs h0 with
    | none =>
      simp only [reconcilePaths, hget] at h
      rw [ih _ h, filesGet_append, filesGet_single, lastWithKey_cons, oElse_assoc]
      congr 1
      cases hk : (h0 == k) with
      | true =>
        have hk' : h0 = k := by simpa using hk
        subst hk'
        rw [hget]
        simp [oElse, oElse_none_right]
      | false => cases hfk : filesGet fs k <;> simp [oElse]
    | some old =>
      simp only [reconcilePaths, hget] at h
      by_cases hne : old.conventional_path ≠ fi.conventional_path
      · rw [if_pos hne] at h
        exact absurd h (by simp)
      · rw [if_neg hne] at h
        push_neg at hne
        cases hcb : cb fi.conventional_path old.location fi.location with
        | error e =>
          rw [hcb] at h
          exact absurd h (by simp)
        | ok u =>
          rw [hcb] at h
          rw [ih _ h, filesGet_replace, lastWithKey_cons, oElse_assoc]
          congr 1
          cases hk : (h0 == k) with
          | true =>
            have hk' : h0 = k := by simpa using hk
            subst hk'
            rw [hget]
            simp [oElse, hne]
          | false => cases hfk : filesGet fs k <;> simp [oElse]

/-- C1.  The registry map produced by `FoRegistry::init`'s two reconciliation
passes (archive batches flattened in configured order, then the single local
batch last) maps every key to the `FileInfo` of the last-processed source
providing that key: later archives override earlier ones, and the local batch
overrides every archive. -/
theorem c1_last_processed_source_wins (archiveBatches : List (List (Nat × FileInfo)))
    (localPaths : List (Nat × FileInfo)) (fs : Files)
    (h : initFiles archiveBatches localPaths = .ok fs) (k : Nat) :
    filesGet fs k = lastWithKey k (archiveBatches.flatten ++ localPaths) := by
  unfold initFiles at h
  cases h1 : reconcilePaths [] archiveBatches.flatten archiveOnShadow with
  | error e => simp [h1] at h
  | ok f1 =>
    simp only [h1] at h
    rw [reconcilePaths_get _ _ _ _ h k, reconcilePaths_get _ _ _ _ h1 k,
      lastWithKey_append]
    have hnil : filesGet [] k = none := rfl
    rw [hnil, oElse_none_right]

/-- Witness for C1 at a concrete input: archive 0 declares `art/x.frm`,
archive 1 (declared later) shadows it, and the local tree shadows both; the
final entry is the local one, the last-processed source. -/
theorem c1_witness :
    filesGet [(fiL1.hash, fiL1)] fiL1.hash =
        lastWithKey fiL1.hash ([[(fiA1.hash, fiA1)], [(fiB1.hash, fiB1)]].flatten
          ++ [(fiL1.hash, fiL1)])
      ∧ lastWithKey fiL1.hash ([[(fiA1.hash, fiA1)], [(fiB1.hash, fiB1)]].flatten
          ++ [(fiL1.hash, fiL1)]) = some fiL1 :=
  ⟨c1_last_processed_source_wins [[(fiA1.hash, fiA1)], [(fiB1.hash, fiB1)]]
    [(fiL1.hash, fiL1)] [(fiL1.hash, fiL1)] rfl fiL1.hash, by rfl⟩

/-- C2.  When an incoming pair's key is already bound to an entry whose
`conventional_path` differs, `reconcile_paths` aborts the whole run at that
pair with a `Conflict` error carrying the key, the old `FileInfo`, and the new
`FileInfo` — whatever pairs remain are never processed, so the collision is
never resolved by keeping the later entry. -/
theorem c2_collision_is_fatal (fs : Files) (k : Nat) (old new : FileInfo)
    (rest : List (Nat × FileInfo)) (cb : OnShadow)
    (hget : filesGet fs k = some old)
    (hne : old.conventional_path ≠ new.conventional_path) :
    reconcilePaths fs ((k, new) :: rest) cb = .error (.Conflict k old new) := by
  simp only [reconcilePaths, hget]
  rw [if_pos hne]

/-- Witness for C2 at a concrete input: two different canonical paths behind an
engineered identical key 5 raise `Conflict`, for any remaining input. -/
theorem c2_witness :
    reconcilePaths [(5, ⟨.Local "/r/a", "a"⟩)] [(5, ⟨.Local "/r/b", "b"⟩)]
        archiveOnShadow =
      .error (.Conflict 5 ⟨.Local "/r/a", "a"⟩ ⟨.Local "/r/b", "b"⟩) :=
  c2_collision_is_fatal [(5, ⟨.Local "/r/a", "a"⟩)] 5 ⟨.Local "/r/a", "a"⟩
    ⟨.Local "/r/b", "b"⟩ [] archiveOnShadow rfl (by decide)

/-- C3.  Shadow policy of the two `FoRegistry::init` passes, for an incoming
pair whose key is bound to an entry with the same `conventional_path`: during
the local pass a `Local`-over-`Local` shadow is rejected with `LocalRewrite`
(reporting the path and both locations); a local-over-archive shadow is
accepted; during the archive pass every shadow is accepted; and acceptance
replaces the old location with the new one while keeping the stored
`conventional_path`. -/
theorem c3_shadow_policy (fs : Files) (k : Nat) (old new : FileInfo)
    (rest : List (Nat × FileInfo))
    (hget : filesGet fs k = some old)
    (heq : old.conventional_path = new.conventional_path) :
    (old.location.isLocal = true → new.location.isLocal = true →
      reconcilePaths fs ((k, new) :: rest) localOnShadow =
        .error (.LocalRewrite new.conventional_path old.location new.location))
    ∧ (old.location.isLocal = false →
      reconcilePaths fs ((k, new) :: rest) localOnShadow =
        reconcilePaths (filesReplace fs k ⟨new.location, old.conventional_path⟩)
          rest localOnShadow)
    ∧ (reconcilePaths fs ((k, new) :: rest) archiveOnShadow =
      reconcilePaths (filesReplace fs k ⟨new.location, old.conventional_path⟩)
        rest archiveOnShadow)
    ∧ filesGet (filesReplace fs k ⟨new.location, old.conventional_path⟩) k =
      some ⟨new.location, old.conventional_path⟩ := by
  refine ⟨?_, ?_, ?_, ?_⟩
  · intro hold _hnew
    simp only [reconcilePaths, hget]
    rw [if_neg (by simp [heq])]
    cases holdLoc : old.location with
    | Archive i o c => rw [holdLoc] at hold; simp [FileLocation.isLocal] at hold
    | Local p => simp [localOnShadow]
  · intro hold
    simp only [reconcilePaths, hget]
    rw [if_neg (by simp [heq])]
    cases holdLoc : old.location with
    | Local p => rw [holdLoc] at hold; simp [FileLocation.isLocal] at hold
    | Archive i o c => simp [localOnShadow]
  · simp only [reconcilePaths, hget]
    rw [if_neg (by simp [heq])]
    simp [archiveOnShadow]
  · rw [filesGet_replace]
    simp [hget]

/-- Witness for C3 at a concrete input: two local files normalizing to the same
path are rejected with `LocalRewrite` during the local pass. -/
theorem c3_witness :
    reconcilePaths [(7, ⟨.Local "/r/A", "a"⟩)] [(7, ⟨.Local "/r/a", "a"⟩)]
        localOnShadow =
      .error (.LocalRewrite "a" (.Local "/r/A") (.Local "/r/a")) :=
  (c3_shadow_policy [(7, ⟨.Local "/r/A", "a"⟩)] 7 ⟨.Local "/r/A", "a"⟩
    ⟨.Local "/r/a", "a"⟩ [] rfl rfl).1 rfl rfl

theorem mem_of_filesGet (fs : Files) (h : Nat) (old : FileInfo)
    (hg : filesGet fs h = some old) : (h, old) ∈ fs := by
  unfold filesGet at hg
  cases hf : fs.find? (fun p => p.1 == h) with
  | none => rw [hf] at hg; simp at hg
  | some p =>
    rw [hf] at hg
    have hg2 : p.2 = old := by simpa using hg
    have hmem := List.mem_of_find?_eq_some hf
    have hpred := List.find?_some hf
    have hp1 : p.1 = h := by simpa using hpred
    obtain ⟨p1, p2⟩ := p
    have hp1' : p1 = h := hp1
    have hg' : p2 = old := hg2
    subst hp1'
    subst hg'
    exact hmem

theorem reconcilePaths_inv : ∀ (ps : List (Nat × FileInfo)) (fs fs' : Files)
    (cb : OnShadow), filesInv fs → pairsPaired ps →
    reconcilePaths fs ps cb = .ok fs' → filesInv fs' := by
  intro ps
  induction ps with
  | nil =>
    intro fs fs' cb hInv hP h
    simp only [reconcilePaths, Except.ok.injEq] at h
    subst h
    exact hInv
  | cons p rest ih =>
    intro fs fs' cb hInv hP h
    obtain ⟨h0, fi⟩ := p
    have hpair : h0 = fi.hash := hP (h0, fi) (List.mem_cons_self _ _)
    have hPrest : pairsPaired rest := fun q hq => hP q (List.mem_cons_of_mem _ hq)
    cases hget : filesGet fs h0 with
    | none =>
      simp only [reconcilePaths, hget] at h
      refine ih (fs ++ [(h0, fi)]) fs' cb ?_ hPrest h
      intro q hq
      rcases List.mem_append.1 hq with hq1 | hq2
      · exact hInv q hq1
      · have : q = (h0, fi) := by simpa using hq2
        subst this
        exact hpair
    | some old =>
      simp only [reconcilePaths, hget] at h
      by_cases hne : old.conventional_path ≠ fi.conventional_path
      · rw [if_pos hne] at h
        exact absurd h (by simp)
      · rw [if_neg hne] at h
        push_neg at hne
        cases hcb : cb fi.conventional_path old.location fi.location with
        | error e =>
          rw [hcb] at h
          exact absurd h (by simp)
        | ok u =>
          rw [hcb] at h
          refine ih _ fs' cb ?_ hPrest h
          intro q hq
          obtain ⟨r, hr, hqe⟩ := List.mem_map.1 hq
          have hold : h0 = old.hash := hInv (h0, old) (mem_of_filesGet fs h0 old hget)
          cases hr1 : (r.1 == h0) with
          | true =>
            rw [hr1, if_pos rfl] at hqe
            have hre : r.1 = h0 := by simpa using hr1
            subst hqe
            show r.1 = FileInfo.hash ⟨fi.location, old.conventional_path⟩
            rw [hre]
            exact hold
          | false =>
            rw [hr1, if_neg (by simp)] at hqe
            subst hqe
            exact hInv r hr

/-- C10.  The key invariant of the registry map: the archive crawler and the
local crawler only emit pairs whose key is the crc32 hash of the paired
`FileInfo`'s `conventional_path`, and `reconcile_paths` preserves the property
that every stored entry's key is the crc32 hash of the stored
`conventional_path` (insertions carry their own hash; replacements keep the
stored key and the stored `conventional_path`). -/
theorem c10_key_is_hash_of_path :
    (∀ (archives : List (List ZipEntry)) (q : Nat × FileInfo),
      q ∈ (gatherPathsInArchives archives).flatten → q.1 = q.2.hash)
    ∧ (∀ (entries : List (String × String)) (q : Nat × FileInfo),
      q ∈ gatherLocalPaths entries → q.1 = q.2.hash)
    ∧ (∀ (fs : Files) (ps : List (Nat × FileInfo)) (cb : OnShadow) (fs' : Files),
      filesInv fs → pairsPaired ps → reconcilePaths fs ps cb = .ok fs' →
        filesInv fs') := by
  refine ⟨?_, ?_, ?_⟩
  · intro archives q hq
    obtain ⟨batch, hbatch, hqb⟩ := List.mem_flatten.1 hq
    obtain ⟨ae, _, hbe⟩ := List.mem_map.1 hbatch
    subst hbe
    obtain ⟨e, _, hge⟩ := List.mem_filterMap.1 hqb
    by_cases hdir : e.is_dir = true
    · rw [if_pos hdir] at hge
      exact absurd hge (by simp)
    · rw [if_neg hdir] at hge
      simp only [Option.some.injEq] at hge
      subst hge
      rfl
  · intro entries q hq
    obtain ⟨e, _, hge⟩ := List.mem_map.1 hq
    subst hge
    rfl
  · exact fun fs ps cb fs' => reconcilePaths_inv ps fs fs' cb

/-- Witness for C10 at a concrete input: reconciling one locally-crawled pair
into an empty registry yields a registry satisfying the key invariant. -/
theorem c10_witness : filesInv [(fiL1.hash, fiL1)] :=
  c10_key_is_hash_of_path.2.2 [] [(fiL1.hash, fiL1)] archiveOnShadow
    [(fiL1.hash, fiL1)]
    (fun q hq => absurd hq (List.not_mem_nil q))
    (fun q hq => by
      have : q = (fiL1.hash, fiL1) := by simpa using hq
      subst this
      rfl)
    rfl

theorem length_dropWhile_le (p : Char → Bool) (l : List Char) :
    (List.dropWhile p l).length ≤ l.length := by
  induction l with
  | nil => simp [List.dropWhile]
  | cons a t ih =>
    rw [List.dropWhile]
    cases p a
    · simp
    · simp only [List.length_cons]
      exact le_trans ih (Nat.le_succ _)

theorem trimEndSlashesL_length_le (l : List Char) :
    (trimEndSlashesL l).length ≤ l.length := by
  unfold trimEndSlashesL
  rw [List.length_reverse]
  calc (List.dropWhile (fun c => c == '/') l.reverse).length
      ≤ l.reverse.length := length_dropWhile_le _ _
    _ = l.length := List.length_reverse l

theorem rsplit_some_length : ∀ (l a b : List Char),
    rsplitOnceSlashL l = some (a, b) → a.length < l.length := by
  intro l
  induction l with
  | nil => intro a b h; simp [rsplitOnceSlashL] at h
  | cons c rest ih =>
    intro a b h
    simp only [rsplitOnceSlashL] at h
    cases hr : rsplitOnceSlashL rest with
    | some ab =>
      obtain ⟨a1, b1⟩ := ab
      rw [hr] at h
      simp only [Option.some.injEq, Prod.mk.injEq] at h
      obtain ⟨ha, hb⟩ := h
      subst ha
      simp only [List.length_cons]
      exact Nat.succ_lt_succ (ih a1 b1 hr)
    | none =>
      rw [hr] at h
      by_cases hc : c = '/'
      · rw [if_pos hc] at h
        simp only [Option.some.injEq, Prod.mk.injEq] at h
        obtain ⟨ha, hb⟩ := h
        subst ha
        simp
      · rw [if_neg hc] at h
        simp at h

theorem parent_length_lt (s : String) (h : Dirs.parent s ≠ "") :
    (Dirs.parent s).data.length < s.data.length := by
  unfold Dirs.parent at h ⊢
  cases hr : rsplitOnceSlashL (trimEndSlashesL s.data) with
  | none =>
    rw [hr] at h
    simp at h
  | some ab =>
    obtain ⟨a, b⟩ := ab
    exact lt_of_lt_of_le (rsplit_some_length _ a b hr) (trimEndSlashesL_length_le s.data)

theorem str_ne_of_length_lt (a b : String) (h : a.data.length < b.data.length) :
    a ≠ b := by
  intro hc
  subst hc
  exact lt_irrefl _ h

theorem str_data_len_pos (s : String) (h : s ≠ "") : 0 < s.data.length := by
  rcases s with ⟨data⟩
  cases data with
  | nil => exact absurd rfl h
  | cons c t => simp

theorem amGet_amInsert {α : Type} (m : List (String × α)) (k k' : String) (v : α) :
    amGet (amInsert m k v) k' = if k' = k then some v else amGet m k' := by
  induction m with
  | nil =>
    by_cases hk : k' = k
    · subst hk
      simp [amInsert, amGet, List.find?]
    · have hk2 : (k == k') = false := beq_eq_false_iff_ne.2 (fun hc => hk hc.symm)
      simp [amInsert, amGet, List.find?, hk, hk2]
  | cons p t ih =>
    obtain ⟨k1, v1⟩ := p
    by_cases h1 : k = k1
    · by_cases h2 : k' = k
      · subst h1
        subst h2
        simp [amInsert, amGet, List.find?]
      · have hb1 : (k == k1) = true := by simp [h1]
        have hb2 : (k == k') = false := beq_eq_false_iff_ne.2 (fun hc => h2 hc.symm)
        have hb3 : (k1 == k') = false :=
          beq_eq_false_iff_ne.2 (fun hc => h2 (h1.trans hc).symm)
        simp [amInsert, amGet, List.find?, hb1, hb2, hb3, h2]
    · have hb1 : (k == k1) = false := beq_eq_false_iff_ne.2 h1
      by_cases hlt : strLt k k1 = true
      · by_cases h2 : k' = k
        · subst h2
          simp [amInsert, amGet, List.find?, hb1, hlt]
        · have hb2 : (k == k') = false := beq_eq_false_iff_ne.2 (fun hc => h2 hc.symm)
          simp [amInsert, amGet, List.find?, hb1, hlt, hb2, h2]
      · have hlt2 : strLt k k1 = false := by
          cases hx : strLt k k1
          · rfl
          · exact absurd hx hlt
        by_cases h3 : k' = k1
        · have h2 : ¬k' = k := fun hc => h1 (by rw [← hc]; exact h3)
          subst h3
          simp [amInsert, amGet, List.find?, hb1, hlt2, h2]
        · have hb4 : (k1 == k') = false := beq_eq_false_iff_ne.2 (fun hc => h3 hc.symm)
          have hstep : amInsert ((k1, v1) :: t) k v = (k1, v1) :: amInsert t k v := by
            simp [amInsert, hb1, hlt2]
          rw [hstep]
          have hGet : amGet ((k1, v1) :: amInsert t k v) k' = amGet (amInsert t k v) k' := by
            simp [amGet, List.find?, hb4]
          have hGet2 : amGet ((k1, v1) :: t) k' = amGet t k' := by
            simp [amGet, List.find?, hb4]
          rw [hGet, ih, hGet2]

theorem registerFuel_get_ge (f : Nat) :
    ∀ (d : Dirs) (q : String) (md : FoMetadata) (k : String), q ≠ "" →
      q.data.length ≤ k.data.length →
      amGet (registerFuel f d q md).map k = amGet d.map k := by
  induction f with
  | zero => intro d q md k _ _; rfl
  | succ n ih =>
    intro d q md k hq hlen
    have hkne : k ≠ "" := by
      intro hc
      subst hc
      exact absurd (lt_of_lt_of_le (str_data_len_pos q hq) hlen) (by simp)
    simp only [registerFuel]
    by_cases hc : entriesContains ((amGet d.map (Dirs.parent q)).getD []) q = true
    · rw [if_pos hc]
    · rw [if_neg hc]
      by_cases hpe : (Dirs.parent q == "") = true
      · rw [if_pos hpe]
        have hpev : Dirs.parent q = "" := by simpa using hpe
        show amGet (amInsert d.map (Dirs.parent q) _) k = amGet d.map k
        rw [amGet_amInsert, if_neg (by rw [hpev]; exact hkne)]
      · rw [if_neg hpe]
        have hpev : Dirs.parent q ≠ "" := by simpa using hpe
        have hplt : (Dirs.parent q).data.length < q.data.length := parent_length_lt q hpev
        rw [ih _ (Dirs.parent q) .Dir k hpev (le_trans (le_of_lt hplt) hlen)]
        show amGet (amInsert d.map (Dirs.parent q) _) k = amGet d.map k
        rw [amGet_amInsert,
          if_neg (fun hc2 => str_ne_of_length_lt (Dirs.parent q) k
            (lt_of_lt_of_le hplt hlen) hc2.symm)]

theorem registerFuel_irrel : ∀ (f1 f2 : Nat) (d : Dirs) (p : String) (md : FoMetadata),
    p.data.length < f1 → p.data.length < f2 →
    registerFuel f1 d p md = registerFuel f2 d p md := by
  intro f1
  induction f1 with
  | zero => intro f2 d p md h1 _; exact absurd h1 (Nat.not_lt_zero _)
  | succ n ih =>
    intro f2 d p md h1 h2
    cases f2 with
    | zero => exact absurd h2 (Nat.not_lt_zero _)
    | succ m =>
      simp only [registerFuel]
      by_cases hc : entriesContains ((amGet d.map (Dirs.parent p)).getD []) p = true
      · rw [if_pos hc, if_pos hc]
      · rw [if_neg hc, if_neg hc]
        by_cases hpe : (Dirs.parent p == "") = true
        · rw [if_pos hpe, if_pos hpe]
        · rw [if_neg hpe, if_neg hpe]
          have hpev : Dirs.parent p ≠ "" := by simpa using hpe
          have hplt := parent_length_lt p hpev
          exact ih m _ (Dirs.parent p) .Dir
            (lt_of_lt_of_le hplt (Nat.lt_succ_iff.1 h1))
            (lt_of_lt_of_le hplt (Nat.lt_succ_iff.1 h2))

/-- C7 counterexample.  After registering the canonical paths `a/b/c.txt` and
`a/d.txt`, `ls_dir("a")` lists the full child paths `a/b` and `a/d.txt` — the
source inserts the whole path as the child key, not the final name — so the
bare names `b` and `d.txt` claimed by the spec are not in the listing. -/
theorem c7_counterexample :
    lsDir exReg7 "a" = some ["a/b", "a/d.txt"]
    ∧ ((lsDir exReg7 "a").getD []).contains "b" = false
    ∧ ((lsDir exReg7 "a").getD []).contains "d.txt" = false := by
  refine ⟨by decide, by decide, by decide⟩

/-- C7 (amended).  Every canonical file path is registered — under its full
path, not its bare name — as a `File` child of its parent (the path split at
the final separator), and missing ancestors are registered as `Dir` children up
to the root.  After registering `a/b/c.txt` and `a/d.txt`: `is_dir("a")`,
`is_dir("a/b")` and `is_dir("")` hold, listing `a` yields exactly the children
`a/b` (Dir) and `a/d.txt` (File), and listing `a/b` yields exactly
`a/b/c.txt` (File). -/
theorem c7_directory_synthesis :
    (∀ (d : Dirs) (p : String) (m : FoMetadata),
      entriesContains ((amGet d.map (Dirs.parent p)).getD []) p = false →
      amGet ((amGet (Dirs.register d p m).map (Dirs.parent p)).getD []) p = some m)
    ∧ isDir exReg7 "a" = true
    ∧ isDir exReg7 "a/b" = true
    ∧ isDir exReg7 "" = true
    ∧ lsDir exReg7 "a" = some ["a/b", "a/d.txt"]
    ∧ lsDir exReg7 "a/b" = some ["a/b/c.txt"]
    ∧ amGet exReg7.dirs.map "a" = some [("a/b", .Dir), ("a/d.txt", .File)]
    ∧ amGet exReg7.dirs.map "a/b" = some [("a/b/c.txt", .File)] := by
  refine ⟨?_, by decide, by decide, by decide, by decide, by decide, by decide,
    by decide⟩
  intro d p m hc
  unfold Dirs.register
  simp only [registerFuel]
  rw [if_neg (by simp [hc])]
  by_cases hpe : (Dirs.parent p == "") = true
  · rw [if_pos hpe]
    simp [amGet_amInsert]
  · rw [if_neg hpe]
    have hpev : Dirs.parent p ≠ "" := by simpa using hpe
    rw [registerFuel_get_ge p.data.length _ (Dirs.parent p) .Dir (Dirs.parent p)
      hpev (le_refl _)]
    simp [amGet_amInsert]

/-- Witness for the general part of the amended C7 at a concrete input:
registering `x/y` as a file makes it a child of its parent. -/
theorem c7_witness :
    amGet ((amGet (Dirs.register Dirs.emptyIndex "x/y" .File).map
      (Dirs.parent "x/y")).getD []) "x/y" = some .File :=
  c7_directory_synthesis.1 Dirs.emptyIndex "x/y" .File (by decide)

/-- C4 counterexample.  A world where cache recovery failed (stale), every
source read succeeds (empty archive config, empty local tree), but creating or
writing the fresh cache file fails: initialization fails with the cache IO
error even though all the source data could be read. -/
theorem c4_counterexample :
    registryInit exInitW4 = .error .CacheIoFail
    ∧ exInitW4.recovery = .error .CacheStale
    ∧ exInitW4.archives = .ok []
    ∧ exInitW4.localPaths = .ok [] := by
  refine ⟨by decide, by decide, by decide, by decide⟩

/-- C4 (amended).  Whenever cache recovery fails — whatever the recovery error
(IO, deserialization, incompatibility or staleness) — `FoRegistry::init` falls
back to the full rebuild (crawl + reconcile + re-index followed by writing a
fresh cache file), whose outcome does not depend on the recovery error; the
rebuild can still fail if the source data cannot be read or if writing the
fresh cache file fails. -/
theorem c4_recovery_falls_back (w : InitWorld) (e : DataInitError)
    (lp : List (Nat × FileInfo)) (hlp : w.localPaths = .ok lp)
    (hrec : w.recovery = .error e) :
    registryInit w =
      rebuildFresh w lp (CacheMetadata.mkNew w.now (lp.map (fun p => p.1))) := by
  simp only [registryInit, hlp, hrec]

/-- Witness for the amended C4 at a concrete input. -/
theorem c4_witness :
    registryInit exInitW4b = rebuildFresh exInitW4b [] (CacheMetadata.mkNew 5 []) :=
  c4_recovery_falls_back exInitW4b .CacheIncompatible [] rfl rfl

/-- C5.  When the cache file opens and deserializes cleanly (matching header,
decodable payload) and the datafiles config mtime is readable,
`recover_from_cache` takes `floor = min(cache file mtime, persisted built-at)`
and reports `CacheStale` exactly when the config mtime exceeds the floor, or
the freshly recomputed local entry count or local fingerprint differs from the
persisted metadata, or some persisted archive descriptor's last-modified time
exceeds the floor; otherwise it returns the persisted registry. -/
theorem c5_staleness_exact (w : RecoverWorld) (nm : CacheMetadata)
    (mtime dct : Nat) (data : FoRegistry)
    (hm : w.cacheMtime = .ok mtime)
    (hpat : w.cacheHeader.pattern = foRegistryPattern)
    (hver : w.cacheHeader.version = FoRegistry.version)
    (hpay : w.cachePayload = .ok data)
    (hd : w.datafilesChangetime = .ok dct) :
    recoverFromCache w nm =
      if dct > min mtime data.cache_metadata.changed
          ∨ nm.local_paths_len ≠ data.cache_metadata.local_paths_len
          ∨ nm.local_paths_hash ≠ data.cache_metadata.local_paths_hash
          ∨ data.archives.any
              (fun a => a.changed > min mtime data.cache_metadata.changed) = true
        then .error .CacheStale
        else .ok data := by
  have hdes : cacheDeserialize w.cacheHeader w.cachePayload =
      .ok ⟨w.cacheHeader, .ok data⟩ := by
    unfold cacheDeserialize
    rw [if_neg (by simp [hpat, hver]), hpay]
  simp only [recoverFromCache, hm, hdes, hd]
  split_ifs <;> first | rfl | tauto

/-- Witness for C5 at a concrete input: a fresh-enough cache (floor
`min 10 8 = 8`, config mtime 3, matching local metadata, archive mtime 4) is
reused. -/
theorem c5_witness : recoverFromCache exRecW5 exMeta5 = .ok exData5 := by
  rw [c5_staleness_exact exRecW5 exMeta5 10 3 exData5 rfl rfl rfl rfl rfl]
  decide

/-- C6.  The cache deserializer reads the fixed 10-byte magic tag and the u32
schema version first; when either differs from the running build's expected
values it yields `CacheIncompatible` without attempting to decode the
`FoRegistry` payload — the outcome is the same for every payload, including an
undecodable one — and the recovery path surfaces exactly `CacheIncompatible`. -/
theorem c6_header_mismatch_incompatible (header : FoRegistryCacheHeader)
    (payload : Except Unit FoRegistry)
    (h : header.pattern ≠ foRegistryPattern ∨ header.version ≠ FoRegistry.version) :
    cacheDeserialize header payload = .ok ⟨header, .error .CacheIncompatible⟩
    ∧ foRegistryPattern.length = 10
    ∧ (∀ (mt : Nat) (dc : Except DatafilesError Nat) (nm : CacheMetadata),
        recoverFromCache ⟨.ok mt, header, payload, dc⟩ nm =
          .error .CacheIncompatible) := by
  have h1 : cacheDeserialize header payload = .ok ⟨header, .error .CacheIncompatible⟩ := by
    unfold cacheDeserialize
    rw [if_pos h]
  refine ⟨h1, by rfl, fun mt dc nm => ?_⟩
  simp only [recoverFromCache, h1]

/-- Witness for C6 at a concrete input: a header with the right magic but a
bumped version, over an undecodable payload, deserializes to the
`CacheIncompatible` marker. -/
theorem c6_witness :
    cacheDeserialize exBadHeader6 (.error ()) =
      .ok ⟨exBadHeader6, .error .CacheIncompatible⟩ :=
  (c6_header_mismatch_incompatible exBadHeader6 (.error ())
    (Or.inr (by decide))).1

/-- C8.  `Files::file_info` (used by the retriever's by-path lookup) hashes its
input's bytes directly, with no canonicalization; consequently a non-canonical
spelling of a registered path (here, the uppercase spelling of a registered
lowercase canonical path) misses the registry and the retriever reports
`NotFound`, even though the canonical form of that spelling is registered. -/
theorem c8_lookup_without_canonicalization :
    (∀ (fs : Files) (p : String),
      fileInfoByPath fs p = filesGet fs (hashBytes (strBytes p)))
    ∧ fileInfoByPath exFiles8 "art/tiles/fom1000.frm" = some fi8
    ∧ makePathConventional "ART/TILES/FOM1000.FRM" = "art/tiles/fom1000.frm"
    ∧ fileInfoByPath exFiles8 "ART/TILES/FOM1000.FRM" = none
    ∧ fileByPath (FoRetriever.mkNew exReg8) exWorld8 "ART/TILES/FOM1000.FRM" =
      .err .NotFound := by
  refine ⟨fun fs p => rfl, by decide, by decide, by decide, by decide⟩

/-- C9.  Retrieving by a `FileInfo` whose archive index is out of bounds for
the registry's archive table panics at the handle-slot indexing
(`self.archives[archive_index].lock()`) instead of returning
`InvalidArchiveIndex`; the retriever's slot table always has exactly one slot
per archive, so the `InvalidArchiveIndex` check behind it can never fire for a
retriever built by `FoRetriever::new`. -/
theorem c9_invalid_index_panics :
    fileByInfo (FoRetriever.mkNew exReg9) exWorld9 exInfo9 = .panic
    ∧ fileByInfo (FoRetriever.mkNew exReg9) exWorld9 exInfo9 ≠
      .err .InvalidArchiveIndex
    ∧ (∀ (d : FoRegistry), (FoRetriever.mkNew d).slots.length = d.archives.length)
    ∧ (∀ (d : FoRegistry) (w : RetrieveWorld) (i : Nat),
        getArchive (FoRetriever.mkNew d) w i ≠ .err .InvalidArchiveIndex) := by
  refine ⟨by decide, by decide, fun d => by simp [FoRetriever.mkNew],
    fun d w i hc => ?_⟩
  unfold getArchive at hc
  by_cases hi : i < (FoRetriever.mkNew d).slots.length
  · rw [if_pos hi] at hc
    have hlen : i < d.archives.length := by
      simpa [FoRetriever.mkNew] using hi
    have hsl : (FoRetriever.mkNew d).slots.get? i = some none := by
      show (d.archives.map (fun _ => (none : Option ZipData))).get? i = some none
      rw [List.get?_map, List.get?_eq_get hlen]
      rfl
    rw [hsl] at hc
    simp only [FoRetriever.mkNew] at hc
    simp only [List.get?_eq_get hlen] at hc
    cases ho : w.openArchive (d.archives.get ⟨i, hlen⟩).path with
    | ioErr => rw [ho] at hc; simp at hc
    | zipErr => rw [ho] at hc; simp at hc
    | ok z => rw [ho] at hc; simp at hc
  · rw [if_neg hi] at hc
    exact RunResult.noConfusion hc

end Fo
